import Mathlib

/-
Verification of the Monday.com connector (scripts/monday_connector.py and
scripts/monday_client.py): a shallow embedding of the data model, the
GraphQL client's response handling, board-schema discovery, and the two
traversal modes (eager fetch_board and lazy traverse_hierarchy), together
with proofs about them.

The remote service is modelled as an oracle: a schema response plus the
finite sequence of page responses that the transport delivers, in the
order the connector requests them.
-/

set_option maxHeartbeats 1000000

/-- JSON-like values: the result type of a successful json.loads. -/
inductive JVal where
  | null : JVal
  | bool : Bool → JVal
  | num : Int → JVal
  | str : String → JVal
  | arr : List JVal → JVal
  | obj : List (String × JVal) → JVal

/-- A wire string together with its json.loads outcome.  Every concrete
Python string either decodes to a JSON value or fails to decode, so the
constructor records which case the string falls in. -/
inductive JsonStr where
  | valid : String → JVal → JsonStr
  | invalid : String → JsonStr

/-- The underlying raw string of a wire payload. -/
def JsonStr.raw : JsonStr → String
  | .valid r _ => r
  | .invalid r => r

/-- json.loads on a wire string: the decoded value, or failure (None here,
an exception in the source, always caught at call sites). -/
def json_loads : JsonStr → Option JVal
  | .valid _ v => some v
  | .invalid _ => none

/-- MONDAY_TYPE_TO_RENDER_HINT: the fixed column-type → render-hint table
(monday_connector.py lines 27-66), in source order. -/
def MONDAY_TYPE_TO_RENDER_HINT : List (String × String) := [
  ("name", "text"),
  ("text", "text"),
  ("long_text", "longtext"),
  ("status", "status"),
  ("date", "date"),
  ("people", "person"),
  ("numbers", "number"),
  ("dropdown", "select"),
  ("color_picker", "select"),
  ("timeline", "timeline"),
  ("doc", "doc"),
  ("file", "file"),
  ("link", "url"),
  ("email", "email"),
  ("phone", "phone"),
  ("checkbox", "checkbox"),
  ("board_relation", "relation"),
  ("mirror", "mirror"),
  ("subtasks", "subtasks"),
  ("country", "text"),
  ("location", "text"),
  ("rating", "number"),
  ("auto_number", "number"),
  ("formula", "text"),
  ("tags", "tags"),
  ("week", "date"),
  ("hour", "text"),
  ("world_clock", "text"),
  ("dependency", "relation")]

/-- MONDAY_TYPE_TO_RENDER_HINT.get(t, 'text'): dictionary lookup with the
"text" default, as used by MondayColumnSchema.render_hint and
_create_item_node. -/
def renderHintGet (t : String) : String :=
  (MONDAY_TYPE_TO_RENDER_HINT.lookup t).getD "text"

/-- MondayColumnSchema (monday_connector.py lines 73-92).  settings is the
decoded settings_str payload, None when absent or non-decodable. -/
structure MondayColumnSchema where
  id : String
  title : String
  type : String
  settings : Option JVal

/-- MondayColumnSchema.render_hint property. -/
def MondayColumnSchema.render_hint (c : MondayColumnSchema) : String :=
  renderHintGet c.type

/-- A group descriptor from the schema response ({id, title, color}). -/
structure RawGroupDesc where
  id : String
  title : String
  color : Option String

/-- MondayBoardSchema (monday_connector.py lines 95-103). -/
structure MondayBoardSchema where
  board_id : String
  board_name : String
  columns : List MondayColumnSchema
  groups : List RawGroupDesc
  hierarchy_type : String
  item_count : Int

/-- First-match association lookup over a list of string pairs, with keys
distinct this coincides with Python dict lookup. -/
theorem lookup_eq_some_of_mem {l : List (String × String)} {t hv : String}
    (hnd : (l.map Prod.fst).Nodup) (hm : (t, hv) ∈ l) :
    l.lookup t = some hv := by
  induction l with
  | nil => cases hm
  | cons p rest ih =>
    obtain ⟨k, v⟩ := p
    simp only [List.map_cons, List.nodup_cons] at hnd
    rcases List.mem_cons.mp hm with h1 | h1
    · cases h1
      simp [List.lookup]
    · have hk : (t == k) = false := by
        apply beq_eq_false_iff_ne.mpr
        intro hkt
        subst hkt
        exact hnd.1 (List.mem_map.mpr ⟨(t, hv), h1, rfl⟩)
      simp only [List.lookup, hk]
      exact ih hnd.2 h1

/-- Lookup misses when the key is absent from the key list. -/
theorem lookup_eq_none_of_not_mem {l : List (String × String)} {t : String}
    (h : t ∉ l.map Prod.fst) : l.lookup t = none := by
  induction l with
  | nil => rfl
  | cons p rest ih =>
    obtain ⟨k, v⟩ := p
    simp only [List.map_cons, List.mem_cons] at h
    push_neg at h
    have hk : (t == k) = false := by
      apply beq_eq_false_iff_ne.mpr
      intro hkt
      exact h.1 hkt
    simp only [List.lookup, hk]
    exact ih h.2

/-- C7: render_hint is a pure total function of the column type tag: every
tag present in the fixed table maps to that table's category, every tag
absent from the table (the empty tag included) maps to "text", and the
MondayColumnSchema.render_hint property is exactly this function of the
column's type tag — being a Lean function it returns a value on every
input and cannot raise. -/
theorem render_hint_total :
    (∀ t hv, (t, hv) ∈ MONDAY_TYPE_TO_RENDER_HINT → renderHintGet t = hv)
    ∧ (∀ t, t ∉ MONDAY_TYPE_TO_RENDER_HINT.map Prod.fst → renderHintGet t = "text")
    ∧ (∀ c : MondayColumnSchema, c.render_hint = renderHintGet c.type) := by
  refine ⟨?_, ?_, fun _ => rfl⟩
  · intro t hv hm
    have hnd : (MONDAY_TYPE_TO_RENDER_HINT.map Prod.fst).Nodup := by decide
    unfold renderHintGet
    rw [lookup_eq_some_of_mem hnd hm]
    rfl
  · intro t hm
    unfold renderHintGet
    rw [lookup_eq_none_of_not_mem hm]
    rfl

/-- Witness for C7: the mapped tag "status" yields "status", and the
unmapped tag "zzz" (and the empty tag) yield "text". -/
theorem render_hint_total_witness :
    renderHintGet "status" = "status" ∧ renderHintGet "zzz" = "text"
    ∧ renderHintGet "" = "text" :=
  ⟨render_hint_total.1 "status" "status" (by decide),
   render_hint_total.2.1 "zzz" (by decide),
   render_hint_total.2.1 "" (by decide)⟩

/-
MondayClient.query (monday_client.py lines 73-128).  The transport
response is modelled as the HTTP status code, the raw response text (used
in the HTTP error message) and the parsed JSON body.  The body records
whether the "errors" and "data" keys are present and with what values.
-/

/-- One entry of a GraphQL error list; e.get("message", "Unknown error")
only reads the message field. -/
structure GqlError where
  message : Option String

/-- The parsed JSON body of a transport response. -/
structure RespBody where
  errors : Option (List GqlError)
  data : Option JVal

/-- A transport response as seen by MondayClient.query once the request
has been sent and answered. -/
structure RawHttpResponse where
  status_code : Nat
  text : String
  body : RespBody

/-- Outcome of MondayClient.query: the data portion on success, or a
raised MondayClientError carrying message, errors and status_code
(monday_client.py lines 29-39). -/
inductive QueryOutcome where
  | ok : JVal → QueryOutcome
  | error : String → Option (List GqlError) → Option Nat → QueryOutcome

/-- MondayClient.query on a delivered transport response
(monday_client.py lines 111-128): non-200 status raises with the status
code; a body whose "errors" key is present raises with the "; "-joined
messages, the error list and the status code; otherwise the "data"
portion is returned (empty object when absent). -/
def MondayClient.query (r : RawHttpResponse) : QueryOutcome :=
  if r.status_code ≠ 200 then
    .error ("HTTP " ++ toString r.status_code ++ ": " ++ r.text) none (some r.status_code)
  else
    match r.body.errors with
    | some errs =>
        .error (String.intercalate "; " (errs.map (fun e => e.message.getD "Unknown error")))
          (some errs) (some r.status_code)
    | none => .ok (r.body.data.getD (JVal.obj []))

/-- C5 counterexample: the raised error does not preserve partial data.
Two responses with status 200 and the same non-empty error list but
different "data" portions produce the very same outcome, so the partial
data present in the body is not carried by (nor recoverable from) the
raised error, contrary to the claim. -/
theorem query_partial_data_not_preserved :
    MondayClient.query ⟨200, "", ⟨some [⟨some "boom"⟩], some (JVal.obj [("k", JVal.str "v")])⟩⟩
      = MondayClient.query ⟨200, "", ⟨some [⟨some "boom"⟩], none⟩⟩
    ∧ (some (JVal.obj [("k", JVal.str "v")]) : Option JVal) ≠ none := by
  constructor
  · rfl
  · intro h
    cases h

/-- C5 (amended): for every transport response, a non-200 status raises an
error carrying that status code; a 200 response whose body carries a
non-empty error list raises an error whose message is the "; "-join of
the original error messages and which preserves the original error list
and status code (the partial data in the body is not attached); a 200
response whose body carries no error list returns the "data" portion
(empty object when the key is absent).  query is a function, so no other
outcome is possible. -/
theorem query_error_handling (r : RawHttpResponse) :
    (r.status_code ≠ 200 →
      MondayClient.query r
        = .error ("HTTP " ++ toString r.status_code ++ ": " ++ r.text) none (some r.status_code))
    ∧ (∀ errs, r.status_code = 200 → r.body.errors = some errs → errs ≠ [] →
      MondayClient.query r
        = .error (String.intercalate "; " (errs.map (fun e => e.message.getD "Unknown error")))
            (some errs) (some 200))
    ∧ (r.status_code = 200 → r.body.errors = none →
      MondayClient.query r = .ok (r.body.data.getD (JVal.obj []))) := by
  refine ⟨?_, ?_, ?_⟩
  · intro h
    simp [MondayClient.query, h]
  · intro errs h200 herrs _
    simp [MondayClient.query, h200, herrs]
  · intro h200 herrs
    simp [MondayClient.query, h200, herrs]

/-- Witness for C5: a 404 response raises with status 404; a 200 response
with two errors raises with the joined message; a clean 200 response
returns its data. -/
theorem query_error_handling_witness :
    MondayClient.query ⟨404, "nf", ⟨none, none⟩⟩ = .error "HTTP 404: nf" none (some 404)
    ∧ MondayClient.query ⟨200, "", ⟨some [⟨some "a"⟩, ⟨none⟩], none⟩⟩
        = .error "a; Unknown error" (some [⟨some "a"⟩, ⟨none⟩]) (some 200)
    ∧ MondayClient.query ⟨200, "", ⟨none, some (JVal.str "d")⟩⟩ = .ok (JVal.str "d") :=
  ⟨(query_error_handling ⟨404, "nf", ⟨none, none⟩⟩).1 (by decide),
   (query_error_handling ⟨200, "", ⟨some [⟨some "a"⟩, ⟨none⟩], none⟩⟩).2.1
      [⟨some "a"⟩, ⟨none⟩] rfl rfl (by simp),
   (query_error_handling ⟨200, "", ⟨none, some (JVal.str "d")⟩⟩).2.2 rfl rfl⟩

/-
discover_board_schema (monday_connector.py lines 228-264).  The schema
response is the "boards" list of the query's data portion; each raw board
carries the fields the query selects.  Field access via dict.get is
modelled with Option, required subscript access with plain fields.
-/

/-- A raw column of the schema response ({id, title, type, settings_str}). -/
structure RawColumn where
  id : String
  title : String
  type : String
  settings_str : Option JsonStr

/-- A raw board of the schema response. -/
structure RawSchemaBoard where
  id : String
  name : String
  hierarchy_type : Option String
  items_count : Option Int
  columns : List RawColumn
  groups : List RawGroupDesc

/-- The schema response: data.get("boards", []). -/
structure RawSchemaResp where
  boards : List RawSchemaBoard

/-- Python truthiness of an optional string (None and "" are falsy). -/
def strTruthy : Option String → Bool
  | none => false
  | some s => s ≠ ""

/-- Per-column settings decoding (monday_connector.py lines 243-248): if
settings_str is truthy, try json.loads, leaving settings as None on a
decode failure; otherwise settings stays None. -/
def decodeSettings (ss : Option JsonStr) : Option JVal :=
  match ss with
  | none => none
  | some s => if s.raw ≠ "" then json_loads s else none

/-- The MondayColumnSchema built for one raw column
(monday_connector.py lines 250-255). -/
def mkColumnSchema (c : RawColumn) : MondayColumnSchema :=
  ⟨c.id, c.title, c.type, decodeSettings c.settings_str⟩

/-- discover_board_schema: raises ValueError when the boards list is
empty, else builds the schema snapshot from boards[0]. -/
def discover_board_schema (board_id : String) (resp : RawSchemaResp) :
    Except String MondayBoardSchema :=
  match resp.boards with
  | [] => .error ("Board " ++ board_id ++ " not found")
  | b :: _ =>
      .ok { board_id := b.id
            board_name := b.name
            hierarchy_type := b.hierarchy_type.getD "classic"
            item_count := b.items_count.getD 0
            groups := b.groups
            columns := b.columns.map mkColumnSchema }

/-- C4: for a schema response whose board carries a column with a
malformed (non-decodable) settings_str payload, discover_board_schema
does not raise: it returns a schema in which that column appears at its
position with no decoded settings (the empty-map degradation — its
settings field is None, so its labels read as empty), while every column
whose settings_str is a decodable payload gets the decoded value. -/
theorem discover_malformed_settings
    (board_id : String) (b : RawSchemaBoard) (bs : List RawSchemaBoard)
    (resp : RawSchemaResp) (cols1 cols2 : List RawColumn) (c : RawColumn) (s : String)
    (hresp : resp.boards = b :: bs)
    (hcols : b.columns = cols1 ++ c :: cols2)
    (hbad : c.settings_str = some (JsonStr.invalid s)) :
    ∃ sch, discover_board_schema board_id resp = .ok sch
      ∧ sch.columns = cols1.map mkColumnSchema ++ mkColumnSchema c :: cols2.map mkColumnSchema
      ∧ (mkColumnSchema c).id = c.id ∧ (mkColumnSchema c).settings = none
      ∧ (∀ col : RawColumn, ∀ raw v, col.settings_str = some (JsonStr.valid raw v) → raw ≠ "" →
          (mkColumnSchema col).settings = some v) := by
  refine ⟨{ board_id := b.id
            board_name := b.name
            hierarchy_type := b.hierarchy_type.getD "classic"
            item_count := b.items_count.getD 0
            groups := b.groups
            columns := b.columns.map mkColumnSchema }, ?_, ?_, rfl, ?_, ?_⟩
  · unfold discover_board_schema
    rw [hresp]
  · simp [hcols]
  · simp [mkColumnSchema, decodeSettings, hbad, json_loads]
  · intro col raw v hv hraw
    simp [mkColumnSchema, decodeSettings, hv, JsonStr.raw, hraw, json_loads]

/-- Witness for C4: a board with a well-formed settings column, a
malformed settings column and a settings-free column discovers cleanly;
the malformed column degrades to empty settings and the well-formed one
decodes. -/
theorem discover_malformed_settings_witness :
    ∃ sch,
      discover_board_schema "1"
        ⟨[⟨"1", "B", none, none,
           [⟨"a", "A", "status", some (JsonStr.valid "{}" (JVal.obj []))⟩,
            ⟨"bad", "Bad", "text", some (JsonStr.invalid "truncated")⟩,
            ⟨"c", "C", "text", none⟩], []⟩]⟩ = .ok sch
      ∧ sch.columns =
          [⟨"a", "A", "status", some (JVal.obj [])⟩,
           ⟨"bad", "Bad", "text", none⟩,
           ⟨"c", "C", "text", none⟩]
      ∧ (mkColumnSchema ⟨"bad", "Bad", "text", some (JsonStr.invalid "truncated")⟩).id = "bad"
      ∧ (mkColumnSchema ⟨"bad", "Bad", "text", some (JsonStr.invalid "truncated")⟩).settings = none := by
  obtain ⟨sch, h1, h2, h3, h4, h5⟩ :=
    discover_malformed_settings "1"
      ⟨"1", "B", none, none,
        [⟨"a", "A", "status", some (JsonStr.valid "{}" (JVal.obj []))⟩,
         ⟨"bad", "Bad", "text", some (JsonStr.invalid "truncated")⟩,
         ⟨"c", "C", "text", none⟩], []⟩ []
      ⟨[⟨"1", "B", none, none,
         [⟨"a", "A", "status", some (JsonStr.valid "{}" (JVal.obj []))⟩,
          ⟨"bad", "Bad", "text", some (JsonStr.invalid "truncated")⟩,
          ⟨"c", "C", "text", none⟩], []⟩]⟩
      [⟨"a", "A", "status", some (JsonStr.valid "{}" (JVal.obj []))⟩]
      [⟨"c", "C", "text", none⟩]
      ⟨"bad", "Bad", "text", some (JsonStr.invalid "truncated")⟩ "truncated" rfl rfl rfl
  refine ⟨sch, h1, ?_, h3, h4⟩
  rw [h2]
  simp [mkColumnSchema, decodeSettings, json_loads, JsonStr.raw]

/-
_create_item_node (monday_connector.py lines 418-463) and the raw item
shape delivered by the items query.
-/

/-- The node kinds of MondayDataNode (the Literal type tag). -/
inductive NType where
  | board : NType
  | group : NType
  | item : NType
  | subitem : NType
deriving DecidableEq

/-- A raw column value entry ({id, text, value, type}); text, value and
type are read with dict.get, so absence is represented by none. -/
structure RawColumnValue where
  id : String
  text : Option String
  value : Option JsonStr
  type : Option String

/-- The group field of a raw item ({id, title}, read with dict.get). -/
structure RawItemGroup where
  id : Option String
  title : Option String

/-- A raw item (or subitem) of a page response.  id and name are required
subscript accesses; everything else is read with dict.get.  Subitems
arrive already nested one level under their item. -/
inductive RawItem where
  | mk : (id : String) → (name : String) → (group : Option RawItemGroup) →
      (created_at : Option String) → (updated_at : Option String) →
      (creator : Option JVal) → (state : Option String) →
      (column_values : List RawColumnValue) → (subitems : List RawItem) → RawItem

def RawItem.id : RawItem → String
  | .mk i _ _ _ _ _ _ _ _ => i

def RawItem.name : RawItem → String
  | .mk _ n _ _ _ _ _ _ _ => n

def RawItem.group : RawItem → Option RawItemGroup
  | .mk _ _ g _ _ _ _ _ _ => g

def RawItem.created_at : RawItem → Option String
  | .mk _ _ _ c _ _ _ _ _ => c

def RawItem.updated_at : RawItem → Option String
  | .mk _ _ _ _ u _ _ _ _ => u

def RawItem.creator : RawItem → Option JVal
  | .mk _ _ _ _ _ c _ _ _ => c

def RawItem.state : RawItem → Option String
  | .mk _ _ _ _ _ _ s _ _ => s

def RawItem.column_values : RawItem → List RawColumnValue
  | .mk _ _ _ _ _ _ _ cv _ => cv

def RawItem.subitems : RawItem → List RawItem
  | .mk _ _ _ _ _ _ _ _ su => su

/-- The parsed value of a column value: None when the raw payload is
absent or falsy, the decoded structured value when json.loads succeeds,
and the raw text itself when decoding fails. -/
inductive ParsedValue where
  | none : ParsedValue
  | json : JVal → ParsedValue
  | raw : String → ParsedValue

/-- MondayColumnValue (monday_connector.py lines 106-114). -/
structure MondayColumnValue where
  id : String
  title : String
  type : String
  text : Option String
  value : ParsedValue
  render_hint : String

/-- MondayDataNode (monday_connector.py lines 117-129): a node of the
normalized hierarchy.  Metadata values mirror Python dict values, with
JVal.null standing for Python None. -/
inductive MondayDataNode where
  | mk : NType → String → String → List MondayColumnValue →
      List MondayDataNode → List (String × JVal) → MondayDataNode

def MondayDataNode.type : MondayDataNode → NType
  | .mk t _ _ _ _ _ => t

def MondayDataNode.id : MondayDataNode → String
  | .mk _ i _ _ _ _ => i

def MondayDataNode.name : MondayDataNode → String
  | .mk _ _ n _ _ _ => n

def MondayDataNode.column_values : MondayDataNode → List MondayColumnValue
  | .mk _ _ _ cv _ _ => cv

def MondayDataNode.children : MondayDataNode → List MondayDataNode
  | .mk _ _ _ _ ch _ => ch

def MondayDataNode.metadata : MondayDataNode → List (String × JVal)
  | .mk _ _ _ _ _ md => md

/-- Python dict assignment d[k] = v on a dict kept in insertion order:
overwrite in place when the key exists, append otherwise. -/
def dictInsert (d : List (String × JVal)) (k : String) (v : JVal) :
    List (String × JVal) :=
  if d.any (fun p => p.1 = k) then
    d.map (fun p => if p.1 = k then (k, v) else p)
  else d ++ [(k, v)]

/-- A Python-None-defaulted optional string as a dict value. -/
def optStrJ : Option String → JVal
  | none => JVal.null
  | some s => JVal.str s

/-- A Python-None-defaulted optional JSON value as a dict value. -/
def optJ : Option JVal → JVal
  | none => JVal.null
  | some v => v

/-- Python `a or b` on an optional string against a string default: the
string when present and non-empty, else the default. -/
def pyOrStr (a : Option String) (b : String) : String :=
  match a with
  | none => b
  | some s => if s = "" then b else s

/-- {col.id: col for col in column_schema}: dict build with overwrite
followed by get — the last schema column with the looked-up id wins. -/
def colMapGet : List MondayColumnSchema → String → Option MondayColumnSchema
  | [], _ => none
  | c :: rest, i =>
      match colMapGet rest i with
      | some c' => some c'
      | none => if c.id = i then some c else none

/-- The parsed_value computation of _create_item_node (lines 432-438):
nothing when the payload is absent or falsy (the empty string), the
decoded value when json.loads succeeds, the raw string when it fails. -/
def parseColumnValue (v : Option JsonStr) : ParsedValue :=
  match v with
  | none => ParsedValue.none
  | some js =>
      if js.raw ≠ "" then
        match json_loads js with
        | some d => ParsedValue.json d
        | none => ParsedValue.raw js.raw
      else ParsedValue.none

/-- The MondayColumnValue built for one raw entry
(monday_connector.py lines 429-450). -/
def mkColumnValue (column_schema : List MondayColumnSchema) (cv : RawColumnValue) :
    MondayColumnValue :=
  let schema := colMapGet column_schema cv.id
  { id := cv.id
    title := match schema with | some sc => sc.title | none => cv.id
    type := pyOrStr cv.type (match schema with | some sc => sc.type | none => "unknown")
    text := cv.text
    value := parseColumnValue cv.value
    render_hint :=
      renderHintGet (pyOrStr cv.type (match schema with | some sc => sc.type | none => "")) }

/-- The base metadata of a created node (creator, created_at, updated_at,
state — monday_connector.py lines 457-462). -/
def itemBaseMeta (it : RawItem) : List (String × JVal) :=
  [("creator", optJ it.creator),
   ("created_at", optStrJ it.created_at),
   ("updated_at", optStrJ it.updated_at),
   ("state", optStrJ it.state)]

/-- _create_item_node: the node built from a raw item, before any caller
mutation (no children, base metadata). -/
def create_item_node (it : RawItem) (column_schema : List MondayColumnSchema)
    (node_type : NType) : MondayDataNode :=
  .mk node_type it.id it.name (it.column_values.map (mkColumnValue column_schema))
    [] (itemBaseMeta it)

/-- C6 counterexample: a column value whose raw payload is present but is
the empty string (not valid JSON) gets parsed value None, not the raw
text itself — the empty string is falsy, so the source skips decoding
entirely instead of falling back to the raw text. -/
theorem parsed_value_empty_payload_cex :
    (mkColumnValue [] ⟨"c", none, some (JsonStr.invalid ""), none⟩).value = ParsedValue.none
    ∧ ParsedValue.none ≠ ParsedValue.raw "" := by
  constructor
  · rfl
  · intro h
    cases h

/-- C6 (amended): for every column value, if the raw payload is present,
non-empty and valid JSON, the parsed value is the decoded structured
value; if it is present, non-empty and not valid JSON, the parsed value
is the raw text itself; if it is absent or the empty string, the parsed
value is None. -/
theorem parsed_value_cases (column_schema : List MondayColumnSchema)
    (cv : RawColumnValue) :
    (∀ raw v, cv.value = some (JsonStr.valid raw v) → raw ≠ "" →
      (mkColumnValue column_schema cv).value = ParsedValue.json v)
    ∧ (∀ raw, cv.value = some (JsonStr.invalid raw) → raw ≠ "" →
      (mkColumnValue column_schema cv).value = ParsedValue.raw raw)
    ∧ (cv.value = none → (mkColumnValue column_schema cv).value = ParsedValue.none)
    ∧ (∀ js, cv.value = some js → js.raw = "" →
      (mkColumnValue column_schema cv).value = ParsedValue.none) := by
  refine ⟨?_, ?_, ?_, ?_⟩
  · intro raw v hv hraw
    simp [mkColumnValue, parseColumnValue, hv, JsonStr.raw, hraw, json_loads]
  · intro raw hv hraw
    simp [mkColumnValue, parseColumnValue, hv, JsonStr.raw, hraw, json_loads]
  · intro hv
    simp [mkColumnValue, parseColumnValue, hv]
  · intro js hv hraw
    simp [mkColumnValue, parseColumnValue, hv, hraw]

/-- Witness for C6: a decodable payload decodes, a present non-empty
malformed payload falls back to its raw text, an absent payload and an
empty payload both yield None. -/
theorem parsed_value_cases_witness :
    (mkColumnValue [] ⟨"a", none, some (JsonStr.valid "3" (JVal.num 3)), none⟩).value
        = ParsedValue.json (JVal.num 3)
    ∧ (mkColumnValue [] ⟨"b", none, some (JsonStr.invalid "oops,,"), none⟩).value
        = ParsedValue.raw "oops,,"
    ∧ (mkColumnValue [] ⟨"c", none, none, none⟩).value = ParsedValue.none
    ∧ (mkColumnValue [] ⟨"d", none, some (JsonStr.invalid ""), none⟩).value
        = ParsedValue.none :=
  ⟨(parsed_value_cases [] ⟨"a", none, some (JsonStr.valid "3" (JVal.num 3)), none⟩).1
      "3" (JVal.num 3) rfl (by decide),
   (parsed_value_cases [] ⟨"b", none, some (JsonStr.invalid "oops,,"), none⟩).2.1
      "oops,," rfl (by decide),
   (parsed_value_cases [] ⟨"c", none, none, none⟩).2.2.1 rfl,
   (parsed_value_cases [] ⟨"d", none, some (JsonStr.invalid ""), none⟩).2.2.2
      (JsonStr.invalid "") rfl rfl⟩

/-- No schema column carries the looked-up id, so the dict lookup misses. -/
theorem colMapGet_eq_none {cols : List MondayColumnSchema} {i : String}
    (h : ∀ c ∈ cols, c.id ≠ i) : colMapGet cols i = none := by
  induction cols with
  | nil => rfl
  | cons c rest ih =>
    have hrest : colMapGet rest i = none := ih (fun c' hc' => h c' (List.mem_cons_of_mem c hc'))
    have hcid : c.id ≠ i := h c (List.mem_cons_self c rest)
    simp [colMapGet, hrest, hcid]

/-- C10: a column value whose id matches no schema column and whose raw
entry carries no type tag falls back to the column id as title, the type
tag "unknown" and the render hint "text"; construction is a total
function, so it never fails. -/
theorem unknown_column_fallback (column_schema : List MondayColumnSchema)
    (cv : RawColumnValue)
    (hid : ∀ c ∈ column_schema, c.id ≠ cv.id)
    (hty : cv.type = none) :
    (mkColumnValue column_schema cv).title = cv.id
    ∧ (mkColumnValue column_schema cv).type = "unknown"
    ∧ (mkColumnValue column_schema cv).render_hint = "text" := by
  have hmap := colMapGet_eq_none hid
  refine ⟨?_, ?_, ?_⟩
  · simp [mkColumnValue, hmap]
  · simp [mkColumnValue, hmap, hty, pyOrStr]
  · simp [mkColumnValue, hmap, hty, pyOrStr]
    decide

/-- Witness for C10: a column value with an unknown id and no type tag,
against a schema holding one unrelated column. -/
theorem unknown_column_fallback_witness :
    (mkColumnValue [⟨"x", "X", "status", none⟩] ⟨"mystery", none, none, none⟩).title = "mystery"
    ∧ (mkColumnValue [⟨"x", "X", "status", none⟩] ⟨"mystery", none, none, none⟩).type = "unknown"
    ∧ (mkColumnValue [⟨"x", "X", "status", none⟩] ⟨"mystery", none, none, none⟩).render_hint
        = "text" :=
  unknown_column_fallback [⟨"x", "X", "status", none⟩] ⟨"mystery", none, none, none⟩
    (by intro c hc; simp at hc; subst hc; decide) rfl

/-
Pagination and the two traversals (fetch_board lines 266-330,
traverse_hierarchy lines 332-389, _fetch_items_page lines 395-416).
-/

/-- One normalized page as handed back by _fetch_items_page. -/
structure Page where
  cursor : Option String
  items : List RawItem

/-- The raw items_page object of a page response. -/
structure RawItemsPage where
  cursor : Option String
  items : Option (List RawItem)

/-- A raw board entry of a page response. -/
structure RawPageBoard where
  items_page : Option RawItemsPage

/-- A raw page response: the "boards" list of the data portion. -/
structure RawPageResp where
  boards : List RawPageBoard

/-- _fetch_items_page's normalization of a raw page response: an empty
boards list (or a missing items_page) yields no cursor and no items. -/
def fetch_items_page (r : RawPageResp) : Page :=
  match r.boards with
  | [] => ⟨none, []⟩
  | b :: _ =>
      match b.items_page with
      | none => ⟨none, []⟩
      | some ip => ⟨ip.cursor, ip.items.getD []⟩

/-- The `while True: ...; if not cursor: break` loop consumes pages up to
and including the first page whose cursor is absent or empty (or until
the delivered responses run out). -/
def consumedPages : List Page → List Page
  | [] => []
  | p :: rest => p :: (if strTruthy p.cursor then consumedPages rest else [])

/-- All items delivered by the consumed pages, in delivery order. -/
def consumedItems (pages : List Page) : List RawItem :=
  (consumedPages pages).flatMap Page.items

/-- The number of _fetch_items_page calls the pagination loop issues
against the delivered responses. -/
def requestsIssued : List Page → Nat
  | [] => 0
  | p :: rest => 1 + (if strTruthy p.cursor then requestsIssued rest else 0)

/-- The group_map build of fetch_board (lines 281-294) followed by
group_map.get(gid): the index of the last schema group carrying the
looked-up id (the dict build overwrites on duplicate ids). -/
def groupMapGet : List RawGroupDesc → String → Option Nat
  | [], _ => none
  | g :: rest, gid =>
      match groupMapGet rest gid with
      | some i => some (i + 1)
      | none => if g.id = gid then some 0 else none

/-- item.get("group", {}).get("id"). -/
def rawGroupId (it : RawItem) : Option String :=
  match it.group with
  | none => none
  | some g => g.id

/-- item.get("group", {}).get("title"). -/
def rawGroupTitle (it : RawItem) : Option String :=
  match it.group with
  | none => none
  | some g => g.title

/-- Where fetch_board attaches an item: the bucket index of the group
node its group id resolves to, or none (attach directly to the board)
when the id is absent, empty or unknown to the schema. -/
def itemTarget (s : MondayBoardSchema) (it : RawItem) : Option Nat :=
  match rawGroupId it with
  | none => none
  | some gid => if gid = "" then none else groupMapGet s.groups gid

/-- node.metadata[k] = v. -/
def withMeta (n : MondayDataNode) (k : String) (v : JVal) : MondayDataNode :=
  .mk n.type n.id n.name n.column_values n.children (dictInsert n.metadata k v)

/-- node.children.extend(cs). -/
def withChildren (n : MondayDataNode) (cs : List MondayDataNode) : MondayDataNode :=
  .mk n.type n.id n.name n.column_values (n.children ++ cs) n.metadata

/-- A subitem node as built by both traversals (lines 320-325, 381-386):
_create_item_node with node_type 'subitem' plus parent_item_id metadata. -/
def subitemNode (s : MondayBoardSchema) (parent_id : String) (su : RawItem) :
    MondayDataNode :=
  withMeta (create_item_node su s.columns NType.subitem) "parent_item_id" (JVal.str parent_id)

/-- The item node fetch_board builds for an item attached directly to the
board: base node plus its subitem children (lines 305, 315-325). -/
def plainItemNode (s : MondayBoardSchema) (it : RawItem) : MondayDataNode :=
  withChildren (create_item_node it s.columns NType.item)
    (it.subitems.map (subitemNode s it.id))

/-- The item node fetch_board builds for an item attached to a group:
group_id and group_title metadata plus subitem children (lines 311-325). -/
def groupedItemNode (s : MondayBoardSchema) (it : RawItem) : MondayDataNode :=
  withChildren
    (withMeta (withMeta (create_item_node it s.columns NType.item)
        "group_id" (optStrJ (rawGroupId it)))
      "group_title" (optStrJ (rawGroupTitle it)))
    (it.subitems.map (subitemNode s it.id))

/-- The mutable state of fetch_board's page loop: the children lists of
the group nodes (one bucket per schema group, in schema order) and the
item nodes appended directly to the board node. -/
structure BuildState where
  buckets : List (List MondayDataNode)
  extra : List MondayDataNode

/-- The state right after the group nodes are created: one empty bucket
per schema group, nothing attached to the board. -/
def initState (s : MondayBoardSchema) : BuildState :=
  ⟨List.replicate s.groups.length [], []⟩

/-- Processing one delivered item (fetch_board lines 304-325). -/
def fetchStep (s : MondayBoardSchema) (st : BuildState) (it : RawItem) : BuildState :=
  match itemTarget s it with
  | some i => ⟨st.buckets.set i ((st.buckets.getD i []) ++ [groupedItemNode s it]), st.extra⟩
  | none => ⟨st.buckets, st.extra ++ [plainItemNode s it]⟩

/-- fetch_board's pagination loop (lines 300-328). -/
def fetchLoop (s : MondayBoardSchema) (st : BuildState) : List Page → BuildState
  | [] => st
  | p :: rest =>
      let st' := p.items.foldl (fetchStep s) st
      if strTruthy p.cursor then fetchLoop s st' rest else st'

/-- The group node created for a schema group (lines 283-292), with the
item nodes appended to it as children. -/
def groupNode (g : RawGroupDesc) (children : List MondayDataNode) : MondayDataNode :=
  .mk NType.group g.id g.title [] children
    [("group_id", JVal.str g.id), ("group_title", JVal.str g.title),
     ("color", optStrJ g.color)]

/-- fetch_board (lines 266-330) given the discovered schema and the
delivered pages: the fully materialized board tree, its children being
the group nodes in schema order followed by the items attached directly
to the board. -/
def fetchBoardTree (s : MondayBoardSchema) (pages : List Page) : MondayDataNode :=
  let st := fetchLoop s (initState s) pages
  .mk NType.board s.board_id s.board_name []
    ((s.groups.zip st.buckets).map (fun p => groupNode p.1 p.2) ++ st.extra) []

/-- The item node traverse_hierarchy yields (lines 373-377): group_id and
group_title metadata always set (possibly to None), no children. -/
def travItemNode (s : MondayBoardSchema) (it : RawItem) : MondayDataNode :=
  withMeta (withMeta (create_item_node it s.columns NType.item)
      "group_id" (optStrJ (rawGroupId it)))
    "group_title" (optStrJ (rawGroupTitle it))

/-- The nodes one delivered item contributes to the stream: the item
node, then its subitem nodes when subitem inclusion is enabled
(lines 372-386). -/
def travItemYield (s : MondayBoardSchema) (include_subitems : Bool) (it : RawItem) :
    List MondayDataNode :=
  travItemNode s it
    :: (if include_subitems then it.subitems.map (subitemNode s it.id) else [])

/-- traverse_hierarchy's pagination loop (lines 368-389). -/
def travLoop (s : MondayBoardSchema) (include_subitems : Bool) :
    List Page → List MondayDataNode
  | [] => []
  | p :: rest =>
      p.items.flatMap (travItemYield s include_subitems)
        ++ (if strTruthy p.cursor then travLoop s include_subitems rest else [])

/-- traverse_hierarchy (lines 332-389) fully drained: the board node, the
group nodes in schema order, then the item and subitem nodes page by
page. -/
def traverseNodes (s : MondayBoardSchema) (include_subitems : Bool)
    (pages : List Page) : List MondayDataNode :=
  MondayDataNode.mk NType.board s.board_id s.board_name [] [] []
    :: (s.groups.map (fun g => groupNode g []) ++ travLoop s include_subitems pages)

/-- The eager loop is the fold of the per-item step over the consumed
items. -/
theorem fetchLoop_eq (s : MondayBoardSchema) (st : BuildState) (pages : List Page) :
    fetchLoop s st pages = (consumedItems pages).foldl (fetchStep s) st := by
  induction pages generalizing st with
  | nil => rfl
  | cons p rest ih =>
    simp only [fetchLoop, consumedItems, consumedPages]
    by_cases h : strTruthy p.cursor
    · simp [h, List.foldl_append, ih, consumedItems]
    · simp [h, List.foldl_append]

/-- The lazy loop yields exactly the per-item yields of the consumed
items, in order. -/
theorem travLoop_eq (s : MondayBoardSchema) (include_subitems : Bool) (pages : List Page) :
    travLoop s include_subitems pages
      = (consumedItems pages).flatMap (travItemYield s include_subitems) := by
  induction pages with
  | nil => rfl
  | cons p rest ih =>
    simp only [travLoop, consumedItems, consumedPages]
    by_cases h : strTruthy p.cursor
    · simp [h, ih, consumedItems]
    · simp [h]

/-
Observational equivalence of the two traversals: the multiset of
(node type, id) pairs over Item and Subitem nodes.
-/

/-- The (node type, id) pairs of the Item and Subitem nodes contained in
a tree. -/
def collectPairs : MondayDataNode → List (NType × String)
  | .mk t i _ _ children _ =>
      (match t with
       | NType.item => [(NType.item, i)]
       | NType.subitem => [(NType.subitem, i)]
       | _ => []) ++
      (children.attach.map (fun c => collectPairs c.1)).flatten
termination_by n => sizeOf n
decreasing_by
  simp only [MondayDataNode.mk.sizeOf_spec]
  have := List.sizeOf_lt_of_mem c.2
  omega

/-- The pair a yielded node contributes itself (nothing for board and
group nodes). -/
def nodeSelfPair (n : MondayDataNode) : List (NType × String) :=
  match n.type with
  | NType.item => [(NType.item, n.id)]
  | NType.subitem => [(NType.subitem, n.id)]
  | _ => []

/-- The (node type, id) pairs over the Item and Subitem nodes of a
yielded stream. -/
def yieldedPairs (ns : List MondayDataNode) : List (NType × String) :=
  ns.flatMap nodeSelfPair

/-- The pairs one delivered item accounts for: itself and its subitems. -/
def itemPairs (it : RawItem) : List (NType × String) :=
  (NType.item, it.id) :: it.subitems.map (fun su => (NType.subitem, su.id))

/-- Unfolding lemma for collectPairs on an explicit node. -/
theorem collectPairs_mk (t : NType) (i n : String) (cv : List MondayColumnValue)
    (ch : List MondayDataNode) (md : List (String × JVal)) :
    collectPairs (.mk t i n cv ch md)
      = (match t with
         | NType.item => [(NType.item, i)]
         | NType.subitem => [(NType.subitem, i)]
         | _ => []) ++ ch.flatMap collectPairs := by
  rw [collectPairs.eq_def]
  dsimp only
  rw [List.attach_map_val]
  rfl

/-- A subitem node contributes exactly its own pair. -/
theorem collectPairs_subitemNode (s : MondayBoardSchema) (pid : String) (su : RawItem) :
    collectPairs (subitemNode s pid su) = [(NType.subitem, su.id)] := by
  simp [subitemNode, withMeta, create_item_node, MondayDataNode.type, MondayDataNode.id,
    MondayDataNode.name, MondayDataNode.column_values, MondayDataNode.children,
    MondayDataNode.metadata, collectPairs_mk]

/-- The subitem nodes of one item contribute exactly their own pairs. -/
theorem flatMap_collect_subitemNodes (s : MondayBoardSchema) (pid : String)
    (subs : List RawItem) :
    (subs.map (subitemNode s pid)).flatMap collectPairs
      = subs.map (fun su => (NType.subitem, su.id)) := by
  induction subs with
  | nil => rfl
  | cons a tl ih => simp [collectPairs_subitemNode, ih]

/-- A board-attached item node contributes its pair and its subitems'. -/
theorem collectPairs_plainItemNode (s : MondayBoardSchema) (it : RawItem) :
    collectPairs (plainItemNode s it) = itemPairs it := by
  simp only [plainItemNode, withChildren, create_item_node, MondayDataNode.type,
    MondayDataNode.id, MondayDataNode.name, MondayDataNode.column_values,
    MondayDataNode.children, MondayDataNode.metadata, collectPairs_mk, List.nil_append]
  rw [flatMap_collect_subitemNodes]
  rfl

/-- A grouped item node contributes the same pairs. -/
theorem collectPairs_groupedItemNode (s : MondayBoardSchema) (it : RawItem) :
    collectPairs (groupedItemNode s it) = itemPairs it := by
  simp only [groupedItemNode, withChildren, withMeta, create_item_node, MondayDataNode.type,
    MondayDataNode.id, MondayDataNode.name, MondayDataNode.column_values,
    MondayDataNode.children, MondayDataNode.metadata, collectPairs_mk, List.nil_append]
  rw [flatMap_collect_subitemNodes]
  rfl

/-- A group node contributes its bucket's pairs. -/
theorem collectPairs_groupNode (g : RawGroupDesc) (cs : List MondayDataNode) :
    collectPairs (groupNode g cs) = cs.flatMap collectPairs := by
  simp [groupNode, collectPairs_mk]

/-- The pairs held by a loop state: everything in the group buckets plus
everything attached directly to the board. -/
def statePairs (st : BuildState) : List (NType × String) :=
  (st.buckets.flatten ++ st.extra).flatMap collectPairs

/-- Appending one node to a valid bucket permutes the flattened buckets
by one appended element. -/
theorem flatten_set_append (bkts : List (List MondayDataNode)) (i : Nat)
    (x : MondayDataNode) (h : i < bkts.length) :
    (bkts.set i ((bkts.getD i []) ++ [x])).flatten.Perm (bkts.flatten ++ [x]) := by
  induction bkts generalizing i with
  | nil => exact absurd h (by simp)
  | cons b rest ih =>
    cases i with
    | zero =>
      simp only [List.set, List.getD, List.flatten_cons, List.getElem?_cons_zero,
        Option.getD_some, List.append_assoc]
      exact List.perm_append_comm.append_left b
    | succ j =>
      have hj : j < rest.length := by simpa using h
      have hg : (b :: rest).getD (j + 1) [] = rest.getD j [] := by
        simp [List.getD]
      simp only [List.set, List.flatten_cons, hg, List.append_assoc]
      exact (ih j hj).append_left b

/-- group_map resolution always yields a valid bucket index. -/
theorem groupMapGet_lt {gs : List RawGroupDesc} {gid : String} {i : Nat}
    (h : groupMapGet gs gid = some i) : i < gs.length := by
  induction gs generalizing i with
  | nil => cases h
  | cons g rest ih =>
    simp only [groupMapGet] at h
    cases hr : groupMapGet rest gid with
    | some j =>
      rw [hr] at h
      cases h
      have := ih hr
      simp only [List.length_cons]
      omega
    | none =>
      rw [hr] at h
      by_cases hg : g.id = gid
      · simp only [hg, if_true] at h
        cases h
        simp
      · simp [hg] at h

/-- The group at the resolved index carries the looked-up id. -/
theorem groupMapGet_id {gs : List RawGroupDesc} {gid : String} {i : Nat}
    (h : groupMapGet gs gid = some i) :
    ∃ g, gs[i]? = some g ∧ g.id = gid := by
  induction gs generalizing i with
  | nil => cases h
  | cons g rest ih =>
    simp only [groupMapGet] at h
    cases hr : groupMapGet rest gid with
    | some j =>
      rw [hr] at h
      cases h
      obtain ⟨g', hg', hid⟩ := ih hr
      exact ⟨g', by simpa using hg', hid⟩
    | none =>
      rw [hr] at h
      by_cases hg : g.id = gid
      · simp only [hg, if_true] at h
        cases h
        exact ⟨g, by simp, hg⟩
      · simp [hg] at h

/-- A resolved item target is a valid bucket index. -/
theorem itemTarget_lt {s : MondayBoardSchema} {it : RawItem} {i : Nat}
    (h : itemTarget s it = some i) : i < s.groups.length := by
  unfold itemTarget at h
  cases hg : rawGroupId it with
  | none => rw [hg] at h; cases h
  | some gid =>
    rw [hg] at h
    by_cases he : gid = ""
    · simp [he] at h
    · simp only [he, if_false] at h
      exact groupMapGet_lt h

/-- One step of the eager fold adds exactly the processed item's pairs
and preserves the bucket count. -/
theorem statePairs_step (s : MondayBoardSchema) (st : BuildState) (it : RawItem)
    (hlen : st.buckets.length = s.groups.length) :
    (statePairs (fetchStep s st it)).Perm (statePairs st ++ itemPairs it)
    ∧ (fetchStep s st it).buckets.length = st.buckets.length := by
  unfold fetchStep
  cases ht : itemTarget s it with
  | none =>
    constructor
    · simp only [statePairs]
      have : (st.buckets.flatten ++ (st.extra ++ [plainItemNode s it]))
          = (st.buckets.flatten ++ st.extra) ++ [plainItemNode s it] := by
        rw [List.append_assoc]
      rw [this, List.flatMap_append]
      simp [collectPairs_plainItemNode]
    · rfl
  | some i =>
    have hi : i < st.buckets.length := hlen ▸ itemTarget_lt ht
    constructor
    · simp only [statePairs]
      have hperm := flatten_set_append st.buckets i (groupedItemNode s it) hi
      have h1 : ((st.buckets.set i ((st.buckets.getD i []) ++ [groupedItemNode s it])).flatten
            ++ st.extra).Perm ((st.buckets.flatten ++ [groupedItemNode s it]) ++ st.extra) :=
        hperm.append_right st.extra
      refine (h1.flatMap_right collectPairs).trans ?_
      have h2 : ((st.buckets.flatten ++ [groupedItemNode s it]) ++ st.extra).Perm
          ((st.buckets.flatten ++ st.extra) ++ [groupedItemNode s it]) := by
        rw [List.append_assoc, List.append_assoc]
        exact (List.perm_append_comm).append_left _
      refine (h2.flatMap_right collectPairs).trans ?_
      rw [List.flatMap_append]
      simp [collectPairs_groupedItemNode]
    · simp

/-- Folding the eager step over a list of items adds exactly their
canonical pairs and preserves the bucket count. -/
theorem statePairs_foldl (s : MondayBoardSchema) (items : List RawItem) (st : BuildState)
    (hlen : st.buckets.length = s.groups.length) :
    (statePairs (items.foldl (fetchStep s) st)).Perm
        (statePairs st ++ items.flatMap itemPairs)
    ∧ (items.foldl (fetchStep s) st).buckets.length = s.groups.length := by
  induction items generalizing st with
  | nil => exact ⟨by simp, hlen⟩
  | cons a tl ih =>
    obtain ⟨hstep, hsteplen⟩ := statePairs_step s st a hlen
    obtain ⟨ihp, ihl⟩ := ih (fetchStep s st a) (hsteplen.trans hlen)
    refine ⟨?_, ihl⟩
    rw [List.foldl_cons]
    refine ihp.trans ?_
    have := hstep.append_right (tl.flatMap itemPairs)
    refine this.trans ?_
    rw [List.flatMap_cons, List.append_assoc]

/-- The group-node portion of the board's children contributes exactly
the flattened buckets' pairs. -/
theorem flatMap_collect_groupNodes (gs : List RawGroupDesc)
    (bkts : List (List MondayDataNode)) (h : gs.length = bkts.length) :
    ((gs.zip bkts).map (fun p => groupNode p.1 p.2)).flatMap collectPairs
      = bkts.flatten.flatMap collectPairs := by
  induction gs generalizing bkts with
  | nil =>
    cases bkts with
    | nil => rfl
    | cons b tl => cases h
  | cons g tl ih =>
    cases bkts with
    | nil => cases h
    | cons b btl =>
      simp only [List.zip_cons_cons, List.map_cons, List.flatMap_cons,
        collectPairs_groupNode, List.flatten_cons, List.flatMap_append]
      rw [ih btl (by simpa using h)]

/-- The initial state holds no pairs. -/
theorem statePairs_init (s : MondayBoardSchema) : statePairs (initState s) = [] := by
  simp only [statePairs, initState]
  rw [List.flatten_replicate_nil]
  rfl

/-- The eager tree's Item/Subitem pairs are a permutation of the
canonical pairs of the consumed items. -/
theorem collectPairs_tree (s : MondayBoardSchema) (pages : List Page) :
    (collectPairs (fetchBoardTree s pages)).Perm
      ((consumedItems pages).flatMap itemPairs) := by
  unfold fetchBoardTree
  rw [fetchLoop_eq]
  obtain ⟨hperm, hlen⟩ := statePairs_foldl s (consumedItems pages) (initState s)
    (by simp [initState])
  rw [collectPairs_mk]
  simp only [List.flatMap_append]
  rw [flatMap_collect_groupNodes s.groups _ hlen.symm]
  have : ((List.foldl (fetchStep s) (initState s) (consumedItems pages)).buckets.flatten.flatMap
        collectPairs)
      ++ ((List.foldl (fetchStep s) (initState s) (consumedItems pages)).extra.flatMap
        collectPairs)
      = statePairs (List.foldl (fetchStep s) (initState s) (consumedItems pages)) := by
    simp [statePairs, List.flatMap_append]
  rw [List.nil_append, this]
  refine hperm.trans ?_
  rw [statePairs_init]
  simp

/-- The drained stream's Item/Subitem pairs are exactly the canonical
pairs of the consumed items, in order. -/
theorem yieldedPairs_traverse (s : MondayBoardSchema) (pages : List Page) :
    yieldedPairs (traverseNodes s true pages)
      = (consumedItems pages).flatMap itemPairs := by
  unfold traverseNodes yieldedPairs
  rw [travLoop_eq]
  simp only [List.flatMap_cons, List.flatMap_append]
  have hb : nodeSelfPair (MondayDataNode.mk NType.board s.board_id s.board_name [] [] [])
      = [] := rfl
  have hg : (s.groups.map (fun g => groupNode g [])).flatMap nodeSelfPair = [] := by
    induction s.groups with
    | nil => rfl
    | cons g tl ih =>
      simp only [List.map_cons, List.flatMap_cons, ih]
      rfl
  rw [hb, hg]
  simp only [List.nil_append]
  rw [List.flatMap_assoc]
  congr 1
  funext it
  simp only [travItemYield, if_true, List.flatMap_cons]
  have h1 : nodeSelfPair (travItemNode s it) = [(NType.item, it.id)] := by
    simp [travItemNode, withMeta, create_item_node, nodeSelfPair, MondayDataNode.type,
      MondayDataNode.id]
  have h2 : (it.subitems.map (subitemNode s it.id)).flatMap nodeSelfPair
      = it.subitems.map (fun su => (NType.subitem, su.id)) := by
    induction it.subitems with
    | nil => rfl
    | cons a tl ih =>
      simp only [List.map_cons, List.flatMap_cons, ih]
      rfl
  rw [h1, h2]
  rfl

/-- C1: for every schema and every delivered page sequence, the multiset
of (node type, id) pairs over the Item and Subitem nodes contained in
the tree fetch_board returns equals the multiset of such pairs over the
nodes yielded by fully draining traverse_hierarchy with subitem
inclusion enabled — eager and lazy traversal are observationally
equivalent. -/
theorem fetch_traverse_multiset_equiv (s : MondayBoardSchema) (pages : List Page) :
    (collectPairs (fetchBoardTree s pages) : Multiset (NType × String))
      = (yieldedPairs (traverseNodes s true pages) : Multiset (NType × String)) := by
  rw [Multiset.coe_eq_coe, yieldedPairs_traverse]
  exact collectPairs_tree s pages

/-
Pagination counts (C2): the reference server of the protocol described by
the spec — pages of at most 100 items (the page size both traversals
hard-code), a cursor present exactly when items remain, the final page
cursorless — and the number of page requests the loop issues against it.
-/

/-- Greedy chunking of a board's items into runs of at most 100, by
fuel-bounded structural recursion; the fuel is always sufficient because
every step consumes at least one item. -/
def chunksFuel : Nat → List RawItem → List (List RawItem)
  | _, [] => []
  | 0, l => [l]
  | fuel + 1, x :: xs => ((x :: xs).take 100) :: chunksFuel fuel ((x :: xs).drop 100)

/-- The pages' item runs for a board, page size 100. -/
def chunks100 (l : List RawItem) : List (List RawItem) :=
  chunksFuel l.length l

/-- Attach cursors: every page that leaves items behind carries a cursor,
the final page carries none; an empty board answers its one page request
with an empty cursorless page. -/
def attachCursors : List (List RawItem) → List Page
  | [] => [⟨none, []⟩]
  | [c] => [⟨none, c⟩]
  | c :: c' :: rest => ⟨some "next", c⟩ :: attachCursors (c' :: rest)

/-- The page responses the reference server delivers for a board holding
the given items. -/
def serverPages (items : List RawItem) : List Page :=
  attachCursors (chunks100 items)

/-- The loop issues one request per consumed page. -/
theorem requestsIssued_eq (pages : List Page) :
    requestsIssued pages = (consumedPages pages).length := by
  induction pages with
  | nil => rfl
  | cons p rest ih =>
    simp only [requestsIssued, consumedPages]
    by_cases h : strTruthy p.cursor
    · simp [h, ih, Nat.add_comm]
    · simp [h]

/-- The loop consumes every page the reference server delivers: all
pages but the last carry a cursor and the loop stops exactly on the
cursorless last one. -/
theorem consumedPages_attachCursors (cs : List (List RawItem)) :
    consumedPages (attachCursors cs) = attachCursors cs := by
  induction cs with
  | nil => rfl
  | cons c tl ih =>
    cases tl with
    | nil => rfl
    | cons c' tl' =>
      show consumedPages (⟨some "next", c⟩ :: attachCursors (c' :: tl'))
          = ⟨some "next", c⟩ :: attachCursors (c' :: tl')
      simp only [consumedPages]
      rw [if_pos (by decide), ih]

/-- The server always delivers at least one page, exactly one per chunk
otherwise. -/
theorem attachCursors_length (cs : List (List RawItem)) :
    (attachCursors cs).length = max 1 cs.length := by
  induction cs with
  | nil => rfl
  | cons c tl ih =>
    cases tl with
    | nil => rfl
    | cons c' tl' =>
      simp only [attachCursors, List.length_cons] at *
      omega

/-- The final delivered page carries no cursor. -/
theorem attachCursors_last (cs : List (List RawItem)) :
    (attachCursors cs).getLast?.map Page.cursor = some none := by
  induction cs with
  | nil => rfl
  | cons c tl ih =>
    cases tl with
    | nil => rfl
    | cons c' tl' =>
      cases tl' with
      | nil => rfl
      | cons c'' tl'' =>
        have h1 : attachCursors (c :: c' :: c'' :: tl'')
            = ⟨some "next", c⟩ :: ⟨some "next", c'⟩ :: attachCursors (c'' :: tl'') := rfl
        have h2 : attachCursors (c' :: c'' :: tl'')
            = ⟨some "next", c'⟩ :: attachCursors (c'' :: tl'') := rfl
        rw [h1, List.getLast?_cons_cons, ← h2]
        exact ih

/-- Chunking at page size 100 produces ceil(n/100) runs for a non-empty
board, given sufficient fuel. -/
theorem chunksFuel_length (fuel : Nat) (l : List RawItem)
    (hf : l.length ≤ fuel) (hne : l ≠ []) :
    (chunksFuel fuel l).length = (l.length + 99) / 100 := by
  induction fuel generalizing l with
  | zero =>
    cases l with
    | nil => exact absurd rfl hne
    | cons x xs => simp at hf
  | succ f ih =>
    cases l with
    | nil => exact absurd rfl hne
    | cons x xs =>
      simp only [chunksFuel]
      by_cases hlen : (x :: xs).length ≤ 100
      · have hdrop : (x :: xs).drop 100 = [] := by
          rw [List.drop_eq_nil_iff]
          omega
        rw [hdrop]
        simp only [chunksFuel, List.length_cons, List.length_nil]
        have : xs.length + 1 ≤ 100 := by simpa using hlen
        omega
      · push_neg at hlen
        have hdlen : ((x :: xs).drop 100).length = (x :: xs).length - 100 := by
          simp
        have hdne : (x :: xs).drop 100 ≠ [] := by
          intro hc
          have hlc := congrArg List.length hc
          rw [hdlen] at hlc
          simp only [List.length_nil] at hlc
          omega
        have hdf : ((x :: xs).drop 100).length ≤ f := by
          rw [hdlen]
          omega
        rw [List.length_cons, ih _ hdf hdne, hdlen]
        simp only [List.length_cons] at hlen ⊢
        omega

/-- C2 counterexample: against the reference server, a board with zero
items still incurs one page request (the `while True` loop always
fetches before it can observe the absent cursor), not the zero requests
the claim's ceil(0/100) = 0 asserts. -/
theorem pagination_empty_board_cex :
    requestsIssued (serverPages ([] : List RawItem)) = 1
    ∧ requestsIssued (serverPages ([] : List RawItem)) ≠ 0 := by
  constructor
  · rfl
  · intro h
    cases h

/-- C2 (amended): for page size 100 and a board holding N items, a full
traversal issues exactly max(1, ceil(N/100)) page requests beyond the
discovery request — in particular one (not zero) page request when
N = 0 — and the cursor in the final consumed page response is absent. -/
theorem pagination_request_count (items : List RawItem) :
    requestsIssued (serverPages items) = max 1 ((items.length + 99) / 100)
    ∧ (consumedPages (serverPages items)).getLast?.map Page.cursor = some none := by
  constructor
  · rw [requestsIssued_eq, serverPages, consumedPages_attachCursors, attachCursors_length]
    cases hi : items with
    | nil => rfl
    | cons x xs =>
      rw [chunks100, chunksFuel_length _ _ (Nat.le_refl _) (by simp)]
  · rw [serverPages, consumedPages_attachCursors]
    exact attachCursors_last _

/-
Attachment invariants (C3) and deterministic order (C8): full
characterization of the eager fold's final state.
-/

/-- One eager step never changes the number of buckets. -/
theorem fetchStep_buckets_length (s : MondayBoardSchema) (st : BuildState) (it : RawItem) :
    (fetchStep s st it).buckets.length = st.buckets.length := by
  unfold fetchStep
  cases itemTarget s it <;> simp

/-- The fold never changes the number of buckets. -/
theorem foldl_buckets_length (s : MondayBoardSchema) (items : List RawItem) (st : BuildState) :
    (items.foldl (fetchStep s) st).buckets.length = st.buckets.length := by
  induction items generalizing st with
  | nil => rfl
  | cons a tl ih => rw [List.foldl_cons, ih, fetchStep_buckets_length]

/-- The board-attached nodes after the fold: the initial ones plus one
plain item node per ungrouped item, in delivery order. -/
theorem extra_foldl (s : MondayBoardSchema) (items : List RawItem) (st : BuildState) :
    (items.foldl (fetchStep s) st).extra
      = st.extra
        ++ (items.filter (fun it => (itemTarget s it).isNone)).map (plainItemNode s) := by
  induction items generalizing st with
  | nil => simp
  | cons a tl ih =>
    rw [List.foldl_cons, ih]
    unfold fetchStep
    cases ht : itemTarget s a with
    | none => simp [List.filter_cons, ht]
    | some i => simp [List.filter_cons, ht]

/-- Unpacking a resolved item target. -/
theorem itemTarget_some {s : MondayBoardSchema} {it : RawItem} {i : Nat}
    (h : itemTarget s it = some i) :
    ∃ gid, rawGroupId it = some gid ∧ gid ≠ "" ∧ groupMapGet s.groups gid = some i := by
  unfold itemTarget at h
  cases hg : rawGroupId it with
  | none => rw [hg] at h; cases h
  | some gid =>
    rw [hg] at h
    by_cases he : gid = ""
    · simp [he] at h
    · simp only [he, if_false] at h
      exact ⟨gid, rfl, he, h⟩

/-- Bucket i after the fold: its initial content plus one grouped item
node per item resolving to i, in delivery order. -/
theorem bucket_foldl (s : MondayBoardSchema) (items : List RawItem) (st : BuildState)
    (hlen : st.buckets.length = s.groups.length) (i : Nat) :
    ((items.foldl (fetchStep s) st).buckets).getD i []
      = st.buckets.getD i []
        ++ (items.filter (fun it => itemTarget s it = some i)).map (groupedItemNode s) := by
  induction items generalizing st with
  | nil => simp
  | cons a tl ih =>
    rw [List.foldl_cons, ih _ ((fetchStep_buckets_length s st a).trans hlen)]
    cases ht : itemTarget s a with
    | none =>
      have hb : (fetchStep s st a).buckets = st.buckets := by
        unfold fetchStep
        rw [ht]
      rw [hb]
      simp [List.filter_cons, ht]
    | some j =>
      have hj : j < st.buckets.length := hlen ▸ itemTarget_lt ht
      have hb : (fetchStep s st a).buckets
          = st.buckets.set j ((st.buckets.getD j []) ++ [groupedItemNode s a]) := by
        unfold fetchStep
        rw [ht]
      rw [hb]
      by_cases hij : j = i
      · subst hij
        have hset : (st.buckets.set j ((st.buckets.getD j []) ++ [groupedItemNode s a])).getD j []
            = (st.buckets.getD j []) ++ [groupedItemNode s a] := by
          simp [List.getD_eq_getElem?_getD, List.getElem?_set_self, hj]
        rw [hset]
        simp [List.filter_cons, ht, List.append_assoc]
      · have hset : (st.buckets.set j ((st.buckets.getD j []) ++ [groupedItemNode s a])).getD i []
            = st.buckets.getD i [] := by
          simp [List.getD_eq_getElem?_getD, List.getElem?_set_ne hij]
        rw [hset]
        simp [List.filter_cons, ht, hij]

/-- Each delivered item accounts for exactly one Item pair. -/
theorem countP_itemPairs (items : List RawItem) :
    (items.flatMap itemPairs).countP (fun p => decide (p.1 = NType.item))
      = items.length := by
  induction items with
  | nil => rfl
  | cons a tl ih =>
    simp only [List.flatMap_cons, List.countP_append, ih, itemPairs]
    have h0 : (a.subitems.map (fun su => (NType.subitem, su.id))).countP
        (fun p => decide (p.1 = NType.item)) = 0 := by
      rw [List.countP_eq_zero]
      intro p hp
      obtain ⟨su, _, rfl⟩ := List.mem_map.mp hp
      simp
    simp only [List.countP_cons, h0]
    simp [Nat.add_comm]

/-- The type tag of a board-attached item node. -/
theorem plainItemNode_type (s : MondayBoardSchema) (it : RawItem) :
    (plainItemNode s it).type = NType.item := rfl

/-- Membership in the group-node portion of the board's children. -/
theorem mem_groupNodes_iff {gs : List RawGroupDesc} {bkts : List (List MondayDataNode)}
    (hlen : bkts.length = gs.length) {n : MondayDataNode} :
    n ∈ (gs.zip bkts).map (fun p => groupNode p.1 p.2)
      ↔ ∃ j, ∃ hj : j < gs.length, n = groupNode (gs.get ⟨j, hj⟩) (bkts.getD j []) := by
  have hzlen : (gs.zip bkts).length = gs.length := by
    rw [List.length_zip, hlen, Nat.min_self]
  constructor
  · intro hn
    obtain ⟨p, hp, hpn⟩ := List.mem_map.mp hn
    obtain ⟨j, hj, hpj⟩ := List.mem_iff_getElem.mp hp
    have hj' : j < gs.length := hzlen ▸ hj
    have hjb : j < bkts.length := hlen ▸ hj'
    refine ⟨j, hj', ?_⟩
    have hz : (gs.zip bkts)[j] = (gs[j], bkts[j]) := List.getElem_zip
    rw [hz] at hpj
    rw [← hpn, ← hpj]
    simp [List.getD_eq_getElem?_getD, List.getElem?_eq_getElem hjb, List.get_eq_getElem]
  · rintro ⟨j, hj, rfl⟩
    have hjb : j < bkts.length := hlen ▸ hj
    apply List.mem_iff_getElem.mpr
    have hjz : j < (gs.zip bkts).length := by rw [hzlen]; exact hj
    refine ⟨j, by rw [List.length_map, hzlen]; exact hj, ?_⟩
    have hz : (gs.zip bkts)[j] = (gs[j], bkts[j]) := List.getElem_zip
    rw [List.getElem_map, hz]
    simp [List.getD_eq_getElem?_getD, List.getElem?_eq_getElem hjb, List.get_eq_getElem]

/-- The default lookup into the initial (all-empty) buckets. -/
theorem getD_replicate_nil (n i : Nat) :
    (List.replicate n ([] : List MondayDataNode)).getD i [] = [] := by
  rcases Nat.lt_or_ge i n with h | h
  · simp [List.getD_eq_getElem?_getD, List.getElem?_replicate, h]
  · simp [List.getD_eq_getElem?_getD, List.getElem?_replicate, Nat.not_lt.mpr h]

/-- The group-map lookup misses exactly when no schema group carries the
looked-up id. -/
theorem groupMapGet_eq_none_iff (gs : List RawGroupDesc) (gid : String) :
    groupMapGet gs gid = none ↔ ∀ g ∈ gs, g.id ≠ gid := by
  induction gs with
  | nil => simp [groupMapGet]
  | cons g rest ih =>
    simp only [groupMapGet]
    cases hr : groupMapGet rest gid with
    | some j =>
      constructor
      · intro h
        cases h
      · intro h
        have hnone : groupMapGet rest gid = none :=
          ih.mpr (fun g' hg' => h g' (List.mem_cons_of_mem g hg'))
        rw [hnone] at hr
        cases hr
    | none =>
      by_cases hg : g.id = gid
      · constructor
        · intro h
          rw [if_pos hg] at h
          cases h
        · intro h
          exact absurd hg (h g (List.mem_cons_self g rest))
      · rw [if_neg hg]
        constructor
        · intro _ g' hg'
          rcases List.mem_cons.mp hg' with h1 | h1
          · rw [h1]
            exact hg
          · exact (ih.mp hr) g' h1
        · intro _
          rfl

/-- C3 (amended): the tree fetch_board returns holds exactly one Item
node per delivered item (no item from any page is omitted); an item
whose group id is absent, EMPTY, or unknown to the schema attaches
directly as a child of the Board node; every other item's node is a
child of exactly the group node carrying its group id (unique because
the schema group ids are distinct).  The final clause characterizes the
board-attach condition: it holds exactly when the group id is absent,
the empty string, or not the id of any schema group — the empty string
is board-attached even when a schema group carries the id "". -/
theorem item_attachment_complete (s : MondayBoardSchema) (pages : List Page)
    (hnd : (s.groups.map RawGroupDesc.id).Nodup) :
    ((collectPairs (fetchBoardTree s pages)).countP (fun p => decide (p.1 = NType.item))
        = (consumedItems pages).length)
    ∧ (∀ it ∈ consumedItems pages,
        (itemTarget s it = none →
          plainItemNode s it ∈ (fetchBoardTree s pages).children)
        ∧ ∀ i, itemTarget s it = some i →
            ∃ gn, ((gn ∈ (fetchBoardTree s pages).children ∧ gn.type = NType.group
                ∧ some gn.id = rawGroupId it) ∧ groupedItemNode s it ∈ gn.children)
              ∧ ∀ gn', gn' ∈ (fetchBoardTree s pages).children → gn'.type = NType.group
                  → some gn'.id = rawGroupId it → gn' = gn)
    ∧ ∀ it : RawItem, itemTarget s it = none ↔
        (rawGroupId it = none ∨ rawGroupId it = some ""
         ∨ ∃ gid, rawGroupId it = some gid ∧ ∀ g ∈ s.groups, g.id ≠ gid) := by
  have hlen : (List.foldl (fetchStep s) (initState s) (consumedItems pages)).buckets.length
      = s.groups.length := by
    rw [foldl_buckets_length]
    simp [initState]
  have hch : (fetchBoardTree s pages).children
      = (s.groups.zip
            (List.foldl (fetchStep s) (initState s) (consumedItems pages)).buckets).map
          (fun p => groupNode p.1 p.2)
        ++ (List.foldl (fetchStep s) (initState s) (consumedItems pages)).extra := by
    unfold fetchBoardTree
    rw [fetchLoop_eq]
    rfl
  have hext : (List.foldl (fetchStep s) (initState s) (consumedItems pages)).extra
      = ((consumedItems pages).filter (fun it => (itemTarget s it).isNone)).map
          (plainItemNode s) := by
    rw [extra_foldl]
    simp [initState]
  have hbucket : ∀ i,
      (List.foldl (fetchStep s) (initState s) (consumedItems pages)).buckets.getD i []
        = ((consumedItems pages).filter (fun it => itemTarget s it = some i)).map
            (groupedItemNode s) := by
    intro i
    rw [bucket_foldl s _ _ (by simp [initState]) i]
    simp only [initState, getD_replicate_nil, List.nil_append]
  refine ⟨?_, ?_, ?_⟩
  · rw [(collectPairs_tree s pages).countP_congr (fun x _ => rfl), countP_itemPairs]
  · intro it hmem
    constructor
    · intro ht
      rw [hch, hext]
      exact List.mem_append_of_mem_right _
        (List.mem_map.mpr ⟨it, List.mem_filter.mpr ⟨hmem, by simp [ht]⟩, rfl⟩)
    · intro i ht
      obtain ⟨gid, hgid, hgne, hmap⟩ := itemTarget_some ht
      have hi : i < s.groups.length := groupMapGet_lt hmap
      obtain ⟨g, hgq, hgidEq⟩ := groupMapGet_id hmap
      have hgi : s.groups.get ⟨i, hi⟩ = g := by
        simpa [List.get_eq_getElem] using List.getElem_eq_iff.mpr hgq
      refine ⟨groupNode g
          ((List.foldl (fetchStep s) (initState s) (consumedItems pages)).buckets.getD i []),
        ⟨⟨?_, rfl, ?_⟩, ?_⟩, ?_⟩
      · rw [hch]
        apply List.mem_append_of_mem_left
        exact (mem_groupNodes_iff hlen).mpr ⟨i, hi, by rw [hgi]⟩
      · show some (groupNode g _).id = rawGroupId it
        rw [hgid]
        simp [groupNode, MondayDataNode.id, hgidEq]
      · show groupedItemNode s it ∈ (groupNode g _).children
        have : (groupNode g
            ((List.foldl (fetchStep s) (initState s) (consumedItems pages)).buckets.getD i [])).children
            = (List.foldl (fetchStep s) (initState s) (consumedItems pages)).buckets.getD i [] := rfl
        rw [this, hbucket i]
        exact List.mem_map.mpr ⟨it, List.mem_filter.mpr ⟨hmem, by simp [ht]⟩, rfl⟩
      · intro gn' hmem' htype' hid'
        rw [hch] at hmem'
        rcases List.mem_append.mp hmem' with hmem' | hmem'
        · obtain ⟨j, hj, rfl⟩ := (mem_groupNodes_iff hlen).mp hmem'
          have hjid : (s.groups.get ⟨j, hj⟩).id = gid := by
            rw [hgid] at hid'
            exact Option.some_injective _ hid'
          have hiid : (s.groups.get ⟨i, hi⟩).id = gid := by rw [hgi, hgidEq]
          have hmapj : (s.groups.map RawGroupDesc.id).get
              ⟨j, by rw [List.length_map]; exact hj⟩
              = (s.groups.map RawGroupDesc.id).get ⟨i, by rw [List.length_map]; exact hi⟩ := by
            simp only [List.get_eq_getElem, List.getElem_map]
            rw [show s.groups[j] = s.groups.get ⟨j, hj⟩ from rfl,
              show s.groups[i] = s.groups.get ⟨i, hi⟩ from rfl, hjid, hiid]
          have hji : j = i := by
            have h2 := hmapj
            simp only [List.get_eq_getElem] at h2
            exact (List.Nodup.getElem_inj_iff hnd).mp h2
          subst hji
          rw [hgi]
        · rw [hext] at hmem'
          obtain ⟨it', _, rfl⟩ := List.mem_map.mp hmem'
          rw [plainItemNode_type] at htype'
          cases htype'
  · intro it
    unfold itemTarget
    cases hg : rawGroupId it with
    | none => simp
    | some gid =>
      by_cases he : gid = ""
      · rw [he]
        simp
      · simp only [he, if_false]
        rw [groupMapGet_eq_none_iff]
        constructor
        · intro h
          exact Or.inr (Or.inr ⟨gid, rfl, h⟩)
        · intro h
          rcases h with h | h | h
          · cases h
          · rw [Option.some_inj] at h
            exact absurd h he
          · obtain ⟨gid', hgid', hall⟩ := h
            rw [Option.some_inj] at hgid'
            rw [hgid']
            exact hall

/-- Witness board for the attachment invariants: one schema group "A",
one item in it, one item with no group at all. -/
def witSchema : MondayBoardSchema :=
  ⟨"b", "B", [], [⟨"A", "Group A", none⟩], "classic", 2⟩

/-- The grouped witness item. -/
def witGrouped : RawItem :=
  RawItem.mk "1" "I1" (some ⟨some "A", some "Group A"⟩) none none none none [] []

/-- The ungrouped witness item. -/
def witUngrouped : RawItem :=
  RawItem.mk "2" "I2" none none none none none [] []

/-- The single witness page. -/
def witPages : List Page := [⟨none, [witGrouped, witUngrouped]⟩]

/-- Witness for C3: on the witness board, the tree holds exactly two Item
nodes, the ungrouped item hangs directly off the board and the grouped
item hangs off exactly the group node with its id. -/
theorem item_attachment_complete_witness :
    ((collectPairs (fetchBoardTree witSchema witPages)).countP
        (fun p => decide (p.1 = NType.item)) = 2)
    ∧ plainItemNode witSchema witUngrouped ∈ (fetchBoardTree witSchema witPages).children
    ∧ ∃ gn, ((gn ∈ (fetchBoardTree witSchema witPages).children ∧ gn.type = NType.group
        ∧ some gn.id = rawGroupId witGrouped)
        ∧ groupedItemNode witSchema witGrouped ∈ gn.children)
      ∧ ∀ gn', gn' ∈ (fetchBoardTree witSchema witPages).children → gn'.type = NType.group
          → some gn'.id = rawGroupId witGrouped → gn' = gn := by
  have h := item_attachment_complete witSchema witPages (by decide)
  have hmemU : witUngrouped ∈ consumedItems witPages := by
    show witUngrouped ∈ [witGrouped, witUngrouped]
    exact List.mem_cons_of_mem _ (List.mem_cons_self _ _)
  have hmemG : witGrouped ∈ consumedItems witPages := by
    show witGrouped ∈ [witGrouped, witUngrouped]
    exact List.mem_cons_self _ _
  exact ⟨h.1, (h.2.1 witUngrouped hmemU).1 rfl, (h.2.1 witGrouped hmemG).2 0 rfl⟩

/-- A schema whose only group carries the empty id. -/
def emptyIdSchema : MondayBoardSchema :=
  ⟨"b", "B", [], [⟨"", "Empty", none⟩], "classic", 1⟩

/-- An item whose group id is the empty string — the id of that group. -/
def emptyIdItem : RawItem :=
  RawItem.mk "1" "I1" (some ⟨some "", some "Empty"⟩) none none none none [] []

/-- The single page delivering that item. -/
def emptyIdPages : List Page := [⟨none, [emptyIdItem]⟩]

/-- C3 counterexample: the item's group id "" is present and IS the id of
a group in the discovered schema, yet fetch_board attaches the item
directly under the Board and the matching group node gets no children —
the empty string is falsy at monday_connector.py:309, so it is treated
like an absent group id.  The claim's "every other item's node is a
child of exactly the group node matching its group id" is therefore
false at this input. -/
theorem empty_group_id_board_attach_cex :
    rawGroupId emptyIdItem = some ""
    ∧ "" ∈ emptyIdSchema.groups.map RawGroupDesc.id
    ∧ (fetchBoardTree emptyIdSchema emptyIdPages).children
        = [groupNode ⟨"", "Empty", none⟩ [], plainItemNode emptyIdSchema emptyIdItem] := by
  refine ⟨rfl, ?_, rfl⟩
  simp [emptyIdSchema]

/-
Deterministic node order (C8).
-/

/-- The type/id projection of the group-node portion follows the schema
groups in order. -/
theorem groupNodes_type_id (gs : List RawGroupDesc) (bkts : List (List MondayDataNode))
    (h : gs.length = bkts.length) :
    ((gs.zip bkts).map (fun p => groupNode p.1 p.2)).map (fun n => (n.type, n.id))
      = gs.map (fun g => (NType.group, g.id)) := by
  induction gs generalizing bkts with
  | nil => rfl
  | cons g tl ih =>
    cases bkts with
    | nil => cases h
    | cons b btl =>
      simp only [List.zip_cons_cons, List.map_cons, List.map_map]
      simp only [List.map_map] at ih
      rw [ih btl (by simpa using h)]
      rfl

/-- The demo board of the spec's concrete scenario: groups A and B. -/
def demoSchema : MondayBoardSchema :=
  ⟨"b1", "Board", [],
   [⟨"A", "Group A", none⟩, ⟨"B", "Group B", none⟩], "classic", 3⟩

/-- First subitem of Item1. -/
def demoSub1 : RawItem := RawItem.mk "11" "Sub1" none none none none none [] []

/-- Second subitem of Item1. -/
def demoSub2 : RawItem := RawItem.mk "12" "Sub2" none none none none none [] []

/-- Item1, in group A, with two subitems. -/
def demoItem1 : RawItem :=
  RawItem.mk "1" "Item1" (some ⟨some "A", some "Group A"⟩) none none none none []
    [demoSub1, demoSub2]

/-- Item2, in group A. -/
def demoItem2 : RawItem :=
  RawItem.mk "2" "Item2" (some ⟨some "A", some "Group A"⟩) none none none none [] []

/-- Item3, in group B. -/
def demoItem3 : RawItem :=
  RawItem.mk "3" "Item3" (some ⟨some "B", some "Group B"⟩) none none none none [] []

/-- The single demo page delivering the three items. -/
def demoPages : List Page := [⟨none, [demoItem1, demoItem2, demoItem3]⟩]

/-- The common metadata of the demo items (every optional field absent). -/
def demoBaseMeta : List (String × JVal) :=
  [("creator", JVal.null), ("created_at", JVal.null),
   ("updated_at", JVal.null), ("state", JVal.null)]

/-- The tree the scenario must produce:
Board → [Group A → [Item1 → [Sub1, Sub2], Item2], Group B → [Item3]]. -/
def demoExpected : MondayDataNode :=
  .mk NType.board "b1" "Board" []
    [.mk NType.group "A" "Group A" []
        [.mk NType.item "1" "Item1" []
            [.mk NType.subitem "11" "Sub1" [] []
                (demoBaseMeta ++ [("parent_item_id", JVal.str "1")]),
             .mk NType.subitem "12" "Sub2" [] []
                (demoBaseMeta ++ [("parent_item_id", JVal.str "1")])]
            (demoBaseMeta
              ++ [("group_id", JVal.str "A"), ("group_title", JVal.str "Group A")]),
         .mk NType.item "2" "Item2" [] []
            (demoBaseMeta
              ++ [("group_id", JVal.str "A"), ("group_title", JVal.str "Group A")])]
        [("group_id", JVal.str "A"), ("group_title", JVal.str "Group A"),
         ("color", JVal.null)],
     .mk NType.group "B" "Group B" []
        [.mk NType.item "3" "Item3" [] []
            (demoBaseMeta
              ++ [("group_id", JVal.str "B"), ("group_title", JVal.str "Group B")])]
        [("group_id", JVal.str "B"), ("group_title", JVal.str "Group B"),
         ("color", JVal.null)]]
    []

/-- C8: the tree fetch_board returns has deterministic node order: the
children of the Board start with the group nodes in schema order and end
with the board-attached items in page-delivery order; the i-th group
node's children are exactly the items resolving to group i in
page-delivery order; an item's children are its subitems in
page-delivery order; and on the concrete scenario (groups A and B, three
items, the first with two subitems) fetch_board returns
Board → [Group A → [Item1 → [Sub1, Sub2], Item2], Group B → [Item3]]. -/
theorem fetch_board_order (s : MondayBoardSchema) (pages : List Page) :
    (((fetchBoardTree s pages).children.take s.groups.length).map
        (fun n => (n.type, n.id)) = s.groups.map (fun g => (NType.group, g.id)))
    ∧ ((fetchBoardTree s pages).children.drop s.groups.length
        = ((consumedItems pages).filter (fun it => (itemTarget s it).isNone)).map
            (plainItemNode s))
    ∧ (∀ i, ∀ hi : i < s.groups.length,
        ((fetchBoardTree s pages).children)[i]?
          = some (groupNode (s.groups.get ⟨i, hi⟩)
              (((consumedItems pages).filter (fun it => itemTarget s it = some i)).map
                (groupedItemNode s))))
    ∧ (∀ it : RawItem,
        (groupedItemNode s it).children = it.subitems.map (subitemNode s it.id)
        ∧ (plainItemNode s it).children = it.subitems.map (subitemNode s it.id))
    ∧ fetchBoardTree demoSchema demoPages = demoExpected := by
  have hlen : (List.foldl (fetchStep s) (initState s) (consumedItems pages)).buckets.length
      = s.groups.length := by
    rw [foldl_buckets_length]
    simp [initState]
  have hch : (fetchBoardTree s pages).children
      = (s.groups.zip
            (List.foldl (fetchStep s) (initState s) (consumedItems pages)).buckets).map
          (fun p => groupNode p.1 p.2)
        ++ (List.foldl (fetchStep s) (initState s) (consumedItems pages)).extra := by
    unfold fetchBoardTree
    rw [fetchLoop_eq]
    rfl
  have hext : (List.foldl (fetchStep s) (initState s) (consumedItems pages)).extra
      = ((consumedItems pages).filter (fun it => (itemTarget s it).isNone)).map
          (plainItemNode s) := by
    rw [extra_foldl]
    simp [initState]
  have hbucket : ∀ i,
      (List.foldl (fetchStep s) (initState s) (consumedItems pages)).buckets.getD i []
        = ((consumedItems pages).filter (fun it => itemTarget s it = some i)).map
            (groupedItemNode s) := by
    intro i
    rw [bucket_foldl s _ _ (by simp [initState]) i]
    simp only [initState, getD_replicate_nil, List.nil_append]
  have hmlen : ((s.groups.zip
        (List.foldl (fetchStep s) (initState s) (consumedItems pages)).buckets).map
      (fun p => groupNode p.1 p.2)).length = s.groups.length := by
    rw [List.length_map, List.length_zip, hlen, Nat.min_self]
  refine ⟨?_, ?_, ?_, fun it => ⟨rfl, rfl⟩, ?_⟩
  · rw [hch, ← hmlen, List.take_left]
    exact groupNodes_type_id _ _ hlen.symm
  · rw [hch, ← hmlen, List.drop_left, hext]
  · intro i hi
    rw [hch]
    have hiz : i < ((s.groups.zip
        (List.foldl (fetchStep s) (initState s) (consumedItems pages)).buckets).map
      (fun p => groupNode p.1 p.2)).length := by rw [hmlen]; exact hi
    rw [List.getElem?_append_left hiz, List.getElem?_eq_getElem hiz]
    have hib : i < (List.foldl (fetchStep s) (initState s) (consumedItems pages)).buckets.length := by
      rw [hlen]; exact hi
    have hizip : i < (s.groups.zip
        (List.foldl (fetchStep s) (initState s) (consumedItems pages)).buckets).length := by
      rw [List.length_zip, hlen, Nat.min_self]; exact hi
    have hz : (s.groups.zip
          (List.foldl (fetchStep s) (initState s) (consumedItems pages)).buckets)[i]
        = (s.groups[i],
           (List.foldl (fetchStep s) (initState s) (consumedItems pages)).buckets[i]) :=
      List.getElem_zip
    rw [List.getElem_map, hz]
    have hgd := hbucket i
    rw [List.getD_eq_getElem _ [] hib] at hgd
    rw [hgd]
    simp [List.get_eq_getElem]
  · rfl

/-- Witness for C8: on the demo board, child 0 of the Board is Group A
holding exactly the items resolving to it, in delivery order. -/
theorem fetch_board_order_witness :
    ((fetchBoardTree demoSchema demoPages).children)[0]?
      = some (groupNode (demoSchema.groups.get ⟨0, by decide⟩)
          (((consumedItems demoPages).filter
              (fun it => itemTarget demoSchema it = some 0)).map
            (groupedItemNode demoSchema))) :=
  (fetch_board_order demoSchema demoPages).2.2.1 0 (by decide)

/-
Graceful handling of a vanished board (C9).
-/

/-- If every delivered page carries a cursor, the loop consumes all of
them (and then blocks on the next, undelivered, response). -/
theorem consumedPages_all_truthy (ps : List Page)
    (h : ∀ p ∈ ps, strTruthy p.cursor) : consumedPages ps = ps := by
  induction ps with
  | nil => rfl
  | cons p rest ih =>
    simp only [consumedPages]
    rw [if_pos (h p (List.mem_cons_self p rest)),
      ih (fun q hq => h q (List.mem_cons_of_mem p hq))]

/-- The loop stops exactly on the first cursorless page. -/
theorem consumedPages_append_stop (ps : List Page) (q : Page) (rest : List Page)
    (hall : ∀ p ∈ ps, strTruthy p.cursor) (hq : ¬ strTruthy q.cursor) :
    consumedPages (ps ++ q :: rest) = ps ++ [q] := by
  induction ps with
  | nil =>
    simp only [List.nil_append, consumedPages]
    rw [if_neg hq]
  | cons p tl ih =>
    simp only [List.cons_append, consumedPages, List.append_eq]
    rw [if_pos (hall p (List.mem_cons_self p tl)),
      ih (fun r hr => hall r (List.mem_cons_of_mem p hr))]

/-- Both traversals depend on the delivered pages only through the
consumed items. -/
theorem fetchBoardTree_eq_of_consumedItems {s : MondayBoardSchema} {p1 p2 : List Page}
    (h : consumedItems p1 = consumedItems p2) :
    fetchBoardTree s p1 = fetchBoardTree s p2 := by
  unfold fetchBoardTree
  rw [fetchLoop_eq, fetchLoop_eq, h]

/-- The drained stream depends on the delivered pages only through the
consumed items. -/
theorem traverseNodes_eq_of_consumedItems {s : MondayBoardSchema} {inc : Bool}
    {p1 p2 : List Page} (h : consumedItems p1 = consumedItems p2) :
    traverseNodes s inc p1 = traverseNodes s inc p2 := by
  unfold traverseNodes
  rw [travLoop_eq, travLoop_eq, h]

/-- fetch_board end to end on the raw oracle: discovery, then the tree
built from the delivered page responses. -/
def fetch_board (board_id : String) (sr : RawSchemaResp) (prs : List RawPageResp) :
    Except String MondayDataNode :=
  (discover_board_schema board_id sr).map
    (fun s => fetchBoardTree s (prs.map fetch_items_page))

/-- traverse_hierarchy end to end on the raw oracle, fully drained. -/
def traverse_hierarchy (board_id : String) (sr : RawSchemaResp)
    (include_subitems : Bool) (prs : List RawPageResp) :
    Except String (List MondayDataNode) :=
  (discover_board_schema board_id sr).map
    (fun s => traverseNodes s include_subitems (prs.map fetch_items_page))

/-- C9: a page response with no boards for the requested id normalizes to
an absent cursor and an empty item list, so both traversals terminate
normally there with the nodes built so far (the traversal over the pages
delivered before the board vanished), while only schema discovery raises
when the board id resolves to no board. -/
theorem missing_board_graceful (board_id : String) (sr : RawSchemaResp)
    (pre rest : List RawPageResp) (include_subitems : Bool)
    (hall : ∀ r ∈ pre, strTruthy (fetch_items_page r).cursor) :
    fetch_items_page ⟨[]⟩ = ⟨none, []⟩
    ∧ fetch_board board_id sr (pre ++ ⟨[]⟩ :: rest) = fetch_board board_id sr pre
    ∧ traverse_hierarchy board_id sr include_subitems (pre ++ ⟨[]⟩ :: rest)
        = traverse_hierarchy board_id sr include_subitems pre
    ∧ discover_board_schema board_id ⟨[]⟩
        = .error ("Board " ++ board_id ++ " not found") := by
  have hallm : ∀ p ∈ pre.map fetch_items_page, strTruthy p.cursor = true := by
    intro p hp
    obtain ⟨r, hr, rfl⟩ := List.mem_map.mp hp
    exact hall r hr
  have hitems : consumedItems ((pre ++ (⟨[]⟩ : RawPageResp) :: rest).map fetch_items_page)
      = consumedItems (pre.map fetch_items_page) := by
    rw [List.map_append, List.map_cons]
    unfold consumedItems
    rw [consumedPages_append_stop _ _ _ hallm (by decide),
      consumedPages_all_truthy _ hallm]
    simp [fetch_items_page]
  refine ⟨rfl, ?_, ?_, rfl⟩
  · unfold fetch_board
    cases discover_board_schema board_id sr with
    | error e => rfl
    | ok s =>
      simp only [Except.map]
      rw [fetchBoardTree_eq_of_consumedItems hitems]
  · unfold traverse_hierarchy
    cases discover_board_schema board_id sr with
    | error e => rfl
    | ok s =>
      simp only [Except.map]
      rw [traverseNodes_eq_of_consumedItems hitems]

/-- The witness schema response for C9. -/
def witSchemaResp : RawSchemaResp := ⟨[⟨"7", "W", none, none, [], []⟩]⟩

/-- A delivered page response carrying a cursor and one item. -/
def witPre : List RawPageResp := [⟨[⟨some ⟨some "c", some [witUngrouped]⟩⟩]⟩]

/-- Undelivered trailing responses. -/
def witRest : List RawPageResp := [⟨[]⟩]

/-- Witness for C9 on a concrete vanished-board run. -/
theorem missing_board_graceful_witness :
    fetch_items_page ⟨[]⟩ = ⟨none, []⟩
    ∧ fetch_board "7" witSchemaResp (witPre ++ ⟨[]⟩ :: witRest)
        = fetch_board "7" witSchemaResp witPre
    ∧ traverse_hierarchy "7" witSchemaResp true (witPre ++ ⟨[]⟩ :: witRest)
        = traverse_hierarchy "7" witSchemaResp true witPre
    ∧ discover_board_schema "7" ⟨[]⟩
        = .error ("Board " ++ "7" ++ " not found") :=
  missing_board_graceful "7" witSchemaResp witPre witRest true (by
    intro r hr
    rcases List.mem_cons.mp hr with h | h
    · subst h
      decide
    · cases h)
